import Mathlib

/-!
# MinMax and Rotate3 exercises

A shallow embedding of `examples/intro/exercises/minmax.c` and
`examples/intro/exercises/rotr3.c`.

The C functions take pointers and rewrite the pointed-to objects in place, so
the embedding threads an explicit memory through every function: a memory maps
an address to the unsigned value stored there, `*p` is `load m p` and
`*p = v` is `store m p v`.  Every C statement becomes one `let`, in source
order, so reads after writes see the written value, exactly as in the C code
(this is what makes the defect of `rotr3` visible in the model).

Unsigned values are natural numbers; a slot of type `uint64_t` holds a value
below `2 ^ 64`, a slot of type `uint32_t` a value below `2 ^ 32`.  The only
arithmetic on them in the functions is comparison and bitwise exclusive or,
which cannot leave the range.  The `int8_t` results are integers, narrowed by
`int8_of_int`.  The counters of the loops of `main` are initialised through
`uint64_of_int` and incremented modulo `2 ^ 64`.
-/

namespace Exercises

/-- Addresses of objects. -/
abbrev Addr := Nat

/-- A memory: the unsigned value stored at every address. -/
abbrev Mem := Addr → Nat

/-- Reading through a pointer: `*p`. -/
def load (m : Mem) (p : Addr) : Nat := m p

/-- Writing through a pointer: `*p = v`. -/
def store (m : Mem) (p : Addr) (v : Nat) : Mem :=
  fun a => if a = p then v else m a

/-- Conversion of an `int` to `int8_t` (two's complement, 8 bits). -/
def int8_of_int (v : Int) : Int := (v + 128) % 256 - 128

/-- The C value of the comparison `a != b`: `1` when it holds, `0` otherwise. -/
def c_ne (a b : Nat) : Int := if a ≠ b then 1 else 0

/-! ## minmax.c -/

/-- Embedding of
```
int8_t minmax(uint64_t *x, uint64_t *y) {
    if (*x > *y) {
        uint64_t tmp = *x;
        *x = *y;
        *y = tmp;
        return 1;
    }
    else {
        return -(*x != *y);
    }
}
```
The result is the returned code and the final memory. -/
def minmax (m : Mem) (x y : Addr) : Int × Mem :=
  if load m x > load m y then
    let tmp := load m x
    let m1 := store m x (load m y)
    let m2 := store m1 y tmp
    (int8_of_int 1, m2)
  else
    (int8_of_int (-(c_ne (load m x) (load m y))), m)

/-- Embedding of
```
int8_t minmax_xor(uint64_t *x, uint64_t *y) {
    if (*x > *y) {
        *x = *x ^ *y;
        *y = *y ^ *x;
        *x = *x ^ *y;
        return 1;
    } else {
        return -(*x != *y);
    }
}
```
Each assignment reads the memory left by the previous one. -/
def minmax_xor (m : Mem) (x y : Addr) : Int × Mem :=
  if load m x > load m y then
    let m1 := store m x (load m x ^^^ load m y)
    let m2 := store m1 y (load m1 y ^^^ load m1 x)
    let m3 := store m2 x (load m2 x ^^^ load m2 y)
    (int8_of_int 1, m3)
  else
    (int8_of_int (-(c_ne (load m x) (load m y))), m)

/-- Embedding of
```
int8_t minmax_ternary(uint64_t *x, uint64_t *y) {
    uint64_t xv = *x, yv = *y;
    *x = xv < yv ? xv : yv;
    *y = xv < yv ? yv : xv;
    return xv < yv ? -1 : xv == yv ? 0 : 1;
}
``` -/
def minmax_ternary (m : Mem) (x y : Addr) : Int × Mem :=
  let xv := load m x
  let yv := load m y
  let m1 := store m x (if xv < yv then xv else yv)
  let m2 := store m1 y (if xv < yv then yv else xv)
  (int8_of_int (if xv < yv then -1 else if xv = yv then 0 else 1), m2)

/-! ## rotr3.c -/

/-- Embedding of
```
void swap(uint32_t *x, uint32_t *y) {
    uint32_t tmp = *x;
    *x = *y;
    *y = tmp;
}
``` -/
def swap (m : Mem) (x y : Addr) : Mem :=
  let tmp := load m x
  let m1 := store m x (load m y)
  let m2 := store m1 y tmp
  m2

/-- Embedding of
```
void rotr3(uint32_t *x, uint32_t *y, uint32_t *z) {
    uint32_t tmp = *x;
    *x = *z;
    *y = *x;
    *z = tmp;
}
```
The second assignment reads `*x` from the memory the first one left. -/
def rotr3 (m : Mem) (x y z : Addr) : Mem :=
  let tmp := load m x
  let m1 := store m x (load m z)
  let m2 := store m1 y (load m1 x)
  let m3 := store m2 z tmp
  m3

/-- Embedding of
```
void rotr3_fixed(uint32_t *x, uint32_t *y, uint32_t *z) {
    uint32_t tmp_x = *x;
    uint32_t tmp_y = *y;
    *x = *z;
    *y = tmp_x;
    *z = tmp_y;
}
``` -/
def rotr3_fixed (m : Mem) (x y z : Addr) : Mem :=
  let tmp_x := load m x
  let tmp_y := load m y
  let m1 := store m x (load m z)
  let m2 := store m1 y tmp_x
  let m3 := store m2 z tmp_y
  m3

/-- The frame of `rotr3_spec`: its three locals `a`, `b`, `c` are three
distinct objects, placed at addresses `0`, `1`, `2` and initialised from the
arguments (`uint32_t a = x, b = y, c = z;`). -/
def rotr3_spec_frame (x y z : Nat) : Mem :=
  store (store (store (fun _ => 0) 0 x) 1 y) 2 z

/-- Embedding of
```
bool rotr3_spec(uint32_t x, uint32_t y, uint32_t z) {
    uint32_t a = x, b = y, c = z;
    rotr3_fixed(&a, &b, &c);
    return a == z && b == x && c == y;
}
```
with `&a = 0`, `&b = 1`, `&c = 2` in the frame of the call. -/
def rotr3_spec (x y z : Nat) : Bool :=
  let m0 := rotr3_spec_frame x y z
  let m1 := rotr3_fixed m0 0 1 2
  (load m1 0 == z) && (load m1 1 == x) && (load m1 2 == y)

/-- A memory holding `x` at address `0`, `y` at address `1` and `0` elsewhere:
two distinct slots, used to run the functions on concrete values. -/
def mem2 (x y : Nat) : Mem :=
  store (store (fun _ => 0) 0 x) 1 y

/-- A memory holding `x`, `y`, `z` at addresses `0`, `1`, `2` and `0`
elsewhere. -/
def mem3 (x y z : Nat) : Mem :=
  store (store (store (fun _ => 0) 0 x) 1 y) 2 z

/-- The checker `rotr3_spec` with the rotation it calls taken as a parameter:
the same frame, the same call on `&a`, `&b`, `&c`, the same three comparisons.
`rotr3_spec` itself is `rotr3_spec_on rotr3_fixed`. -/
def rotr3_spec_on (rot : Mem → Addr → Addr → Addr → Mem) (x y z : Nat) : Bool :=
  let m0 := rotr3_spec_frame x y z
  let m1 := rot m0 0 1 2
  (load m1 0 == z) && (load m1 1 == x) && (load m1 2 == y)

/-! ## The demonstration loops of minmax.c -/

/-- Conversion of an `int` to `uint64_t`: reduction modulo `2 ^ 64`.  The
initialisers `uint64_t i = -5` and `uint64_t j = -5` go through it. -/
def uint64_of_int (v : Int) : Nat := (v % 2 ^ 64).toNat

/-- The body of the inner loop of `main`,
```
uint64_t x = i, y = j;
int out = minmax(&x, &y);
printf("..." , i, j, x, y, out);
```
with the locals `x`, `y` as two distinct objects at addresses `0` and `1`.
The result is the tuple of the five values handed to `printf`. -/
def main_body (i j : Nat) : Nat × Nat × Nat × Nat × Int :=
  let m0 := mem2 i j
  let r := minmax m0 0 1
  (i, j, load r.2 0, load r.2 1, r.1)

/-- The inner loop of `main` from the current value of its counter,
`for (...; j < 5; j++) { body }`: the condition is tested first, in unsigned
64-bit arithmetic, and `j++` wraps modulo `2 ^ 64`.  The result is the list of
lines printed, one for each execution of the body. -/
def main_inner (i j : Nat) : List (Nat × Nat × Nat × Nat × Int) :=
  if j < 5 then main_body i j :: main_inner i ((j + 1) % 2 ^ 64) else []
termination_by 5 - j
decreasing_by omega

/-- The outer loop of `main` from the current value of its counter,
`for (...; i < 5; i++) { for (uint64_t j = -5; j < 5; j++) { body } }`. -/
def main_outer (i : Nat) : List (Nat × Nat × Nat × Nat × Int) :=
  if i < 5 then main_inner i (uint64_of_int (-5)) ++ main_outer ((i + 1) % 2 ^ 64)
  else []
termination_by 5 - i
decreasing_by omega

/-- Embedding of
```
int main() {
    for (uint64_t i = -5; i < 5; i++) {
        for (uint64_t j = -5; j < 5; j++) {
            uint64_t x = i, y = j;
            int out = minmax(&x, &y);
            printf("%" PRId64 " %" PRId64 " --> %" PRId64 " %" PRId64 " (%i)\n", i, j, x, y, out);
        }
    }
}
```
as the list of the lines it prints. -/
def main : List (Nat × Nat × Nat × Nat × Int) :=
  main_outer (uint64_of_int (-5))

/-! ## Reading after writing -/

theorem load_store_same (m : Mem) (p : Addr) (v : Nat) :
    load (store m p v) p = v := by
  simp [load, store]

theorem load_store_other (m : Mem) (p q : Addr) (v : Nat) (h : q ≠ p) :
    load (store m p v) q = m q := by
  simp [load, store, h]

theorem store_load_self (m : Mem) (p : Addr) : store m p (m p) = m := by
  funext a
  by_cases h : a = p <;> simp [store, h]

theorem int8_of_int_one : int8_of_int 1 = 1 := by decide

theorem int8_of_int_zero : int8_of_int 0 = 0 := by decide

theorem int8_of_int_neg_one : int8_of_int (-1) = -1 := by decide

/-- The exclusive-or exchange: the three assignments of `minmax_xor`, on values. -/
theorem xor_exchange (a b : Nat) :
    (b ^^^ (a ^^^ b)) = a ∧ ((a ^^^ b) ^^^ (b ^^^ (a ^^^ b))) = b := by
  have h1 : (b ^^^ (a ^^^ b)) = a := by
    rw [Nat.xor_comm a b, ← Nat.xor_assoc, Nat.xor_self, Nat.zero_xor]
  refine ⟨h1, ?_⟩
  rw [h1, Nat.xor_comm a b, Nat.xor_assoc, Nat.xor_self, Nat.xor_zero]

/-- The values `minmax_xor` stores stay below `2 ^ 64` when the two values it
starts from are: no store of the exchange needs a reduction modulo `2 ^ 64`. -/
theorem xor_exchange_in_range (a b : Nat) (ha : a < 2 ^ 64) (hb : b < 2 ^ 64) :
    (a ^^^ b) < 2 ^ 64 ∧ (b ^^^ (a ^^^ b)) < 2 ^ 64 ∧
      ((a ^^^ b) ^^^ (b ^^^ (a ^^^ b))) < 2 ^ 64 := by
  have h1 : (a ^^^ b) < 2 ^ 64 := Nat.xor_lt_two_pow ha hb
  have h2 : (b ^^^ (a ^^^ b)) < 2 ^ 64 := Nat.xor_lt_two_pow hb h1
  exact ⟨h1, h2, Nat.xor_lt_two_pow h1 h2⟩

/-! ## Final slots and return code of the three MinMax variants -/

theorem minmax_gt (m : Mem) (x y : Addr) (h : m x > m y) :
    minmax m x y = (1, store (store m x (m y)) y (m x)) := by
  simp [minmax, load, h, int8_of_int_one]

theorem minmax_le (m : Mem) (x y : Addr) (h : m x ≤ m y) :
    minmax m x y = (if m x = m y then 0 else -1, m) := by
  have h1 : ¬ m x > m y := by omega
  by_cases e : m x = m y
  · simp [minmax, load, c_ne, e, int8_of_int_zero]
  · simp [minmax, load, c_ne, h1, e, int8_of_int_neg_one]

theorem minmax_xor_gt (m : Mem) (x y : Addr) (h : m x > m y) :
    minmax_xor m x y = (1, store (store m x (m y)) y (m x)) := by
  have hne : x ≠ y := by
    intro e
    rw [e] at h
    exact Nat.lt_irrefl _ h
  have hne2 : y ≠ x := fun e => hne e.symm
  obtain ⟨e1, e2⟩ := xor_exchange (m x) (m y)
  have hm : store (store (store m x (m x ^^^ m y)) y (m y ^^^ (m x ^^^ m y))) x
        ((m x ^^^ m y) ^^^ (m y ^^^ (m x ^^^ m y)))
      = store (store m x (m y)) y (m x) := by
    rw [e2, e1]
    funext a
    by_cases ha : a = x
    · subst ha
      simp [store, hne]
    · simp [store, ha]
  simp only [minmax_xor, load, h, if_true, int8_of_int_one]
  simp only [store, hne, hne2, if_true, if_false] at hm ⊢
  rw [hm]

theorem minmax_xor_le (m : Mem) (x y : Addr) (h : m x ≤ m y) :
    minmax_xor m x y = (if m x = m y then 0 else -1, m) := by
  have h1 : ¬ m x > m y := by omega
  by_cases e : m x = m y
  · simp [minmax_xor, load, c_ne, e, int8_of_int_zero]
  · simp [minmax_xor, load, c_ne, h1, e, int8_of_int_neg_one]

theorem minmax_ternary_gt (m : Mem) (x y : Addr) (h : m x > m y) :
    minmax_ternary m x y = (1, store (store m x (m y)) y (m x)) := by
  have h1 : ¬ m x < m y := by omega
  have h2 : ¬ m x = m y := by omega
  simp [minmax_ternary, load, h1, h2, int8_of_int_one]

theorem minmax_ternary_le (m : Mem) (x y : Addr) (h : m x ≤ m y) :
    minmax_ternary m x y = (if m x = m y then 0 else -1, m) := by
  by_cases e : m x = m y
  · have h1 : ¬ m y < m y := Nat.lt_irrefl _
    have hs : store (store m x (m y)) y (m y) = m := by
      rw [← e, store_load_self, e, store_load_self]
    simp only [minmax_ternary, load, e, h1, if_false, if_true, int8_of_int_zero]
    rw [hs]
  · have h1 : m x < m y := by omega
    have hs : store (store m x (m x)) y (m y) = m := by
      rw [store_load_self, store_load_self]
    simp only [minmax_ternary, load, h1, e, if_false, if_true, int8_of_int_neg_one]
    rw [hs]

/-- After an exchange of two slots the first holds the old second value; this
needs no distinctness, because the write to the second slot stores a value
that is then read back when the two addresses coincide. -/
theorem exchanged_fst (m : Mem) (p q : Addr) (h : p ≠ q) :
    load (store (store m p (m q)) q (m p)) p = m q := by
  simp [load, store, h]

theorem exchanged_snd (m : Mem) (p q : Addr) :
    load (store (store m p (m q)) q (m p)) q = m p := by
  simp [load, store]

/-- The three variants agree with the exchange when the first value is the larger one. -/
theorem variant_gt (f : Mem → Addr → Addr → Int × Mem)
    (hf : f = minmax ∨ f = minmax_xor ∨ f = minmax_ternary)
    (m : Mem) (p q : Addr) (h : m p > m q) :
    f m p q = (1, store (store m p (m q)) q (m p)) := by
  rcases hf with e | e | e <;> subst e
  · exact minmax_gt m p q h
  · exact minmax_xor_gt m p q h
  · exact minmax_ternary_gt m p q h

/-- The three variants leave the memory as it is when the first value is not the larger one. -/
theorem variant_le (f : Mem → Addr → Addr → Int × Mem)
    (hf : f = minmax ∨ f = minmax_xor ∨ f = minmax_ternary)
    (m : Mem) (p q : Addr) (h : m p ≤ m q) :
    f m p q = (if m p = m q then 0 else -1, m) := by
  rcases hf with e | e | e <;> subst e
  · exact minmax_le m p q h
  · exact minmax_xor_le m p q h
  · exact minmax_ternary_le m p q h

/-- The return code of the three variants, from the values the slots held at the call. -/
theorem variant_code (f : Mem → Addr → Addr → Int × Mem)
    (hf : f = minmax ∨ f = minmax_xor ∨ f = minmax_ternary)
    (m : Mem) (p q : Addr) :
    (f m p q).1 = if m p > m q then 1 else if m p = m q then 0 else -1 := by
  by_cases h : m p > m q
  · rw [variant_gt f hf m p q h, if_pos h]
  · rw [variant_le f hf m p q (Nat.le_of_not_gt h), if_neg h]

/-! ## MinMax: the claims -/

/-- C1: for every pair of 64-bit unsigned values `(x, y)` held in two distinct
slots `p`, `q`, each of `minmax`, `minmax_xor` and `minmax_ternary` leaves the
first slot holding `min x y` and the second holding `max x y`, so that the
first slot is at most the second afterwards. -/
theorem minmax_orders_slots (f : Mem → Addr → Addr → Int × Mem)
    (hf : f = minmax ∨ f = minmax_xor ∨ f = minmax_ternary)
    (m : Mem) (p q : Addr) (x y : Nat) (hpq : p ≠ q)
    (hp : load m p = x) (hq : load m q = y) (hx : x < 2 ^ 64) (hy : y < 2 ^ 64) :
    load (f m p q).2 p = min x y ∧ load (f m p q).2 q = max x y ∧
      load (f m p q).2 p ≤ load (f m p q).2 q := by
  simp only [load] at hp hq
  subst hp hq
  by_cases h : m p > m q
  · rw [variant_gt f hf m p q h]
    have e1 := exchanged_fst m p q hpq
    have e2 := exchanged_snd m p q
    simp only [e1, e2]
    refine ⟨?_, ?_, ?_⟩
    · exact (Nat.min_eq_right (Nat.le_of_lt h)).symm
    · exact (Nat.max_eq_left (Nat.le_of_lt h)).symm
    · exact Nat.le_of_lt h
  · have h1 : m p ≤ m q := Nat.le_of_not_gt h
    rw [variant_le f hf m p q h1]
    simp only [load]
    refine ⟨?_, ?_, h1⟩
    · exact (Nat.min_eq_left h1).symm
    · exact (Nat.max_eq_right h1).symm

/-- C1 at the boundary of the range, on `(2 ^ 64 - 1, 0)`, and on the equal
pair `(7, 7)`, for each of the three variants. -/
theorem minmax_orders_slots_witness :
    (load (minmax (mem2 (2 ^ 64 - 1) 0) 0 1).2 0 = min (2 ^ 64 - 1) 0 ∧
      load (minmax (mem2 (2 ^ 64 - 1) 0) 0 1).2 1 = max (2 ^ 64 - 1) 0 ∧
      load (minmax (mem2 (2 ^ 64 - 1) 0) 0 1).2 0 ≤
        load (minmax (mem2 (2 ^ 64 - 1) 0) 0 1).2 1) ∧
    (load (minmax_xor (mem2 (2 ^ 64 - 1) 0) 0 1).2 0 = min (2 ^ 64 - 1) 0 ∧
      load (minmax_xor (mem2 (2 ^ 64 - 1) 0) 0 1).2 1 = max (2 ^ 64 - 1) 0 ∧
      load (minmax_xor (mem2 (2 ^ 64 - 1) 0) 0 1).2 0 ≤
        load (minmax_xor (mem2 (2 ^ 64 - 1) 0) 0 1).2 1) ∧
    (load (minmax_ternary (mem2 7 7) 0 1).2 0 = min 7 7 ∧
      load (minmax_ternary (mem2 7 7) 0 1).2 1 = max 7 7 ∧
      load (minmax_ternary (mem2 7 7) 0 1).2 0 ≤
        load (minmax_ternary (mem2 7 7) 0 1).2 1) :=
  ⟨minmax_orders_slots minmax (Or.inl rfl) (mem2 (2 ^ 64 - 1) 0) 0 1 (2 ^ 64 - 1) 0
      (by decide) rfl rfl (by decide) (by decide),
   minmax_orders_slots minmax_xor (Or.inr (Or.inl rfl)) (mem2 (2 ^ 64 - 1) 0) 0 1
      (2 ^ 64 - 1) 0 (by decide) rfl rfl (by decide) (by decide),
   minmax_orders_slots minmax_ternary (Or.inr (Or.inr rfl)) (mem2 7 7) 0 1 7 7
      (by decide) rfl rfl (by decide) (by decide)⟩

/-- C2: for every pair of 64-bit unsigned values `(x, y)` held in the slots at
the call, each of `minmax`, `minmax_xor` and `minmax_ternary` returns `1`
exactly when `x > y`, `0` exactly when `x = y` and `-1` exactly when `x < y`;
the code is always one of `-1`, `0`, `1`, and it depends on the values held
before the call only: any call of the same variant on slots holding the same
two values returns the same code. -/
theorem minmax_code_three_way (f : Mem → Addr → Addr → Int × Mem)
    (hf : f = minmax ∨ f = minmax_xor ∨ f = minmax_ternary)
    (m : Mem) (p q : Addr) (x y : Nat)
    (hp : load m p = x) (hq : load m q = y) (_hx : x < 2 ^ 64) (_hy : y < 2 ^ 64) :
    ((f m p q).1 = 1 ↔ x > y) ∧ ((f m p q).1 = 0 ↔ x = y) ∧
      ((f m p q).1 = -1 ↔ x < y) ∧
      ((f m p q).1 = -1 ∨ (f m p q).1 = 0 ∨ (f m p q).1 = 1) ∧
      (∀ (m2 : Mem) (p2 q2 : Addr), load m2 p2 = x → load m2 q2 = y →
        (f m2 p2 q2).1 = (f m p q).1) := by
  simp only [load] at hp hq
  have hc := variant_code f hf m p q
  rw [hp, hq] at hc
  refine ⟨?_, ?_, ?_, ?_, ?_⟩
  · rw [hc]
    by_cases h : x > y
    · simp [h]
    · by_cases e : x = y <;> simp [h, e]
  · rw [hc]
    by_cases h : x > y
    · have e : x ≠ y := by omega
      simp [h, e]
    · by_cases e : x = y <;> simp [h, e]
  · rw [hc]
    by_cases h : x > y
    · have e : ¬ x < y := by omega
      simp [h, e]
    · by_cases e : x = y
      · simp [e]
      · have l : x < y := by omega
        simp [h, e, l]
  · rw [hc]
    by_cases h : x > y
    · simp [h]
    · by_cases e : x = y <;> simp [h, e]
  · intro m2 p2 q2 h1 h2
    simp only [load] at h1 h2
    have hc2 := variant_code f hf m2 p2 q2
    rw [h1, h2] at hc2
    rw [hc, hc2]

/-- C2 on `(2 ^ 64 - 1, 3)` for `minmax_xor`: the first value is the larger one
in unsigned order. -/
theorem minmax_code_three_way_witness :
    ((minmax_xor (mem2 (2 ^ 64 - 1) 3) 0 1).1 = 1 ↔ 2 ^ 64 - 1 > 3) ∧
      ((minmax_xor (mem2 (2 ^ 64 - 1) 3) 0 1).1 = 0 ↔ 2 ^ 64 - 1 = 3) ∧
      ((minmax_xor (mem2 (2 ^ 64 - 1) 3) 0 1).1 = -1 ↔ 2 ^ 64 - 1 < 3) ∧
      ((minmax_xor (mem2 (2 ^ 64 - 1) 3) 0 1).1 = -1 ∨
        (minmax_xor (mem2 (2 ^ 64 - 1) 3) 0 1).1 = 0 ∨
        (minmax_xor (mem2 (2 ^ 64 - 1) 3) 0 1).1 = 1) ∧
      (∀ (m2 : Mem) (p2 q2 : Addr), load m2 p2 = 2 ^ 64 - 1 → load m2 q2 = 3 →
        (minmax_xor m2 p2 q2).1 = (minmax_xor (mem2 (2 ^ 64 - 1) 3) 0 1).1) :=
  minmax_code_three_way minmax_xor (Or.inr (Or.inl rfl)) (mem2 (2 ^ 64 - 1) 3) 0 1
    (2 ^ 64 - 1) 3 rfl rfl (by decide) (by decide)

/-- C3: for every pair of 64-bit unsigned values `(x, y)` held in the slots,
`minmax`, `minmax_xor` and `minmax_ternary` produce identical results: the same
return code, the same final first slot and the same final second slot (indeed
the same final memory), also when `x = y`. -/
theorem minmax_variants_agree (m : Mem) (p q : Addr) (x y : Nat)
    (_hp : load m p = x) (_hq : load m q = y) (_hx : x < 2 ^ 64) (_hy : y < 2 ^ 64) :
    ((minmax_xor m p q).1 = (minmax m p q).1 ∧
      load (minmax_xor m p q).2 p = load (minmax m p q).2 p ∧
      load (minmax_xor m p q).2 q = load (minmax m p q).2 q) ∧
    ((minmax_ternary m p q).1 = (minmax m p q).1 ∧
      load (minmax_ternary m p q).2 p = load (minmax m p q).2 p ∧
      load (minmax_ternary m p q).2 q = load (minmax m p q).2 q) ∧
    minmax_xor m p q = minmax m p q ∧ minmax_ternary m p q = minmax m p q := by
  have e1 : minmax_xor m p q = minmax m p q := by
    by_cases h : m p > m q
    · rw [minmax_xor_gt m p q h, minmax_gt m p q h]
    · rw [minmax_xor_le m p q (Nat.le_of_not_gt h), minmax_le m p q (Nat.le_of_not_gt h)]
  have e2 : minmax_ternary m p q = minmax m p q := by
    by_cases h : m p > m q
    · rw [minmax_ternary_gt m p q h, minmax_gt m p q h]
    · rw [minmax_ternary_le m p q (Nat.le_of_not_gt h),
        minmax_le m p q (Nat.le_of_not_gt h)]
  refine ⟨?_, ?_, e1, e2⟩
  · rw [e1]
    exact ⟨rfl, rfl, rfl⟩
  · rw [e2]
    exact ⟨rfl, rfl, rfl⟩

/-- C3 on the equal pair `(5, 5)`. -/
theorem minmax_variants_agree_witness :
    ((minmax_xor (mem2 5 5) 0 1).1 = (minmax (mem2 5 5) 0 1).1 ∧
      load (minmax_xor (mem2 5 5) 0 1).2 0 = load (minmax (mem2 5 5) 0 1).2 0 ∧
      load (minmax_xor (mem2 5 5) 0 1).2 1 = load (minmax (mem2 5 5) 0 1).2 1) ∧
    ((minmax_ternary (mem2 5 5) 0 1).1 = (minmax (mem2 5 5) 0 1).1 ∧
      load (minmax_ternary (mem2 5 5) 0 1).2 0 = load (minmax (mem2 5 5) 0 1).2 0 ∧
      load (minmax_ternary (mem2 5 5) 0 1).2 1 = load (minmax (mem2 5 5) 0 1).2 1) ∧
    minmax_xor (mem2 5 5) 0 1 = minmax (mem2 5 5) 0 1 ∧
      minmax_ternary (mem2 5 5) 0 1 = minmax (mem2 5 5) 0 1 :=
  minmax_variants_agree (mem2 5 5) 0 1 5 5 rfl rfl (by decide) (by decide)

/-- C8, as stated, fails: on `(x, y) = (5, 2)` each of the three variants
returns `1`, while the sign of `y - x = 2 - 5` is `-1`. -/
theorem minmax_code_not_sign_y_sub_x :
    ((minmax (mem2 5 2) 0 1).1 = 1 ∧ (minmax_xor (mem2 5 2) 0 1).1 = 1 ∧
      (minmax_ternary (mem2 5 2) 0 1).1 = 1) ∧
    Int.sign ((2 : Int) - (5 : Int)) = -1 ∧
    (minmax (mem2 5 2) 0 1).1 ≠ Int.sign ((2 : Int) - (5 : Int)) ∧
    (minmax_xor (mem2 5 2) 0 1).1 ≠ Int.sign ((2 : Int) - (5 : Int)) ∧
    (minmax_ternary (mem2 5 2) 0 1).1 ≠ Int.sign ((2 : Int) - (5 : Int)) := by
  decide

/-- C8, amended: for every pair of 64-bit unsigned values `(x, y)` held in the
slots at the call and each of `minmax`, `minmax_xor`, `minmax_ternary`, the
return value equals the sign of `x - y`, taken over the integers: `1` when
`x > y`, `0` when `x = y`, `-1` when `x < y`. -/
theorem minmax_code_sign_x_sub_y (f : Mem → Addr → Addr → Int × Mem)
    (hf : f = minmax ∨ f = minmax_xor ∨ f = minmax_ternary)
    (m : Mem) (p q : Addr) (x y : Nat)
    (hp : load m p = x) (hq : load m q = y) (_hx : x < 2 ^ 64) (_hy : y < 2 ^ 64) :
    (f m p q).1 = Int.sign ((x : Int) - (y : Int)) := by
  simp only [load] at hp hq
  rw [variant_code f hf m p q, hp, hq]
  by_cases h : x > y
  · have h1 : (0 : Int) < (x : Int) - (y : Int) := by omega
    rw [if_pos h, Int.sign_eq_one_of_pos h1]
  · by_cases e : x = y
    · subst e
      simp
    · have h1 : (x : Int) - (y : Int) < 0 := by omega
      rw [if_neg h, if_neg e, Int.sign_eq_neg_one_of_neg h1]

/-- C8, amended, on `(5, 2)`, `(5, 5)` and `(2, 5)`, one variant each. -/
theorem minmax_code_sign_x_sub_y_witness :
    (minmax (mem2 5 2) 0 1).1 = Int.sign (((5 : Nat) : Int) - ((2 : Nat) : Int)) ∧
    (minmax_xor (mem2 5 5) 0 1).1 = Int.sign (((5 : Nat) : Int) - ((5 : Nat) : Int)) ∧
    (minmax_ternary (mem2 2 5) 0 1).1
      = Int.sign (((2 : Nat) : Int) - ((5 : Nat) : Int)) :=
  ⟨minmax_code_sign_x_sub_y minmax (Or.inl rfl) (mem2 5 2) 0 1 5 2 rfl rfl
      (by decide) (by decide),
   minmax_code_sign_x_sub_y minmax_xor (Or.inr (Or.inl rfl)) (mem2 5 5) 0 1 5 5 rfl rfl
      (by decide) (by decide),
   minmax_code_sign_x_sub_y minmax_ternary (Or.inr (Or.inr rfl)) (mem2 2 5) 0 1 2 5
      rfl rfl (by decide) (by decide)⟩

/-- C9: for every pair of 64-bit values `(x, y)` held in the slots, when
`x > y` the three exclusive-or assignments of `minmax_xor` exchange the two
slots exactly (they end as `(y, x)`) and the function returns `1`; when
`x ≤ y` the slots keep `(x, y)` and the function returns `0` if `x = y` and
`-1` if `x < y`. -/
theorem minmax_xor_exchanges (m : Mem) (p q : Addr) (x y : Nat)
    (hp : load m p = x) (hq : load m q = y) (_hx : x < 2 ^ 64) (_hy : y < 2 ^ 64) :
    (x > y → load (minmax_xor m p q).2 p = y ∧ load (minmax_xor m p q).2 q = x ∧
        (minmax_xor m p q).1 = 1) ∧
    (x ≤ y → load (minmax_xor m p q).2 p = x ∧ load (minmax_xor m p q).2 q = y ∧
        (x = y → (minmax_xor m p q).1 = 0) ∧ (x < y → (minmax_xor m p q).1 = -1)) := by
  simp only [load] at hp hq
  subst hp hq
  constructor
  · intro h
    have hne : p ≠ q := by
      intro e
      rw [e] at h
      exact Nat.lt_irrefl _ h
    rw [minmax_xor_gt m p q h]
    exact ⟨exchanged_fst m p q hne, exchanged_snd m p q, rfl⟩
  · intro h
    rw [minmax_xor_le m p q h]
    refine ⟨rfl, rfl, ?_, ?_⟩
    · intro e
      simp [e]
    · intro l
      have e : m p ≠ m q := by omega
      simp [e]

/-- C9 on the three pairs of the specification: `(5, 2)` returns `1` and
leaves `(2, 5)`; `(5, 5)` returns `0` and leaves `(5, 5)`; `(2, 5)` returns
`-1` and leaves `(2, 5)`. -/
theorem minmax_xor_exchanges_witness :
    (load (minmax_xor (mem2 5 2) 0 1).2 0 = 2 ∧ load (minmax_xor (mem2 5 2) 0 1).2 1 = 5 ∧
      (minmax_xor (mem2 5 2) 0 1).1 = 1) ∧
    (load (minmax_xor (mem2 5 5) 0 1).2 0 = 5 ∧ load (minmax_xor (mem2 5 5) 0 1).2 1 = 5 ∧
      (minmax_xor (mem2 5 5) 0 1).1 = 0) ∧
    (load (minmax_xor (mem2 2 5) 0 1).2 0 = 2 ∧ load (minmax_xor (mem2 2 5) 0 1).2 1 = 5 ∧
      (minmax_xor (mem2 2 5) 0 1).1 = -1) :=
  ⟨(minmax_xor_exchanges (mem2 5 2) 0 1 5 2 rfl rfl (by decide) (by decide)).1 (by decide),
   let h := (minmax_xor_exchanges (mem2 5 5) 0 1 5 5 rfl rfl (by decide) (by decide)).2
       (by decide)
   ⟨h.1, h.2.1, h.2.2.1 rfl⟩,
   let h := (minmax_xor_exchanges (mem2 2 5) 0 1 2 5 rfl rfl (by decide) (by decide)).2
       (by decide)
   ⟨h.1, h.2.1, h.2.2.2 (by decide)⟩⟩

/-- C10: for every pair with original `x ≤ y`, each of `minmax`, `minmax_xor`
and `minmax_ternary` leaves both slots holding their original values (the
first still `x`, the second still `y`; indeed the whole memory is as before);
the value of a slot differs from its original only when `x > y`. -/
theorem minmax_keeps_ordered (f : Mem → Addr → Addr → Int × Mem)
    (hf : f = minmax ∨ f = minmax_xor ∨ f = minmax_ternary)
    (m : Mem) (p q : Addr) (x y : Nat)
    (hp : load m p = x) (hq : load m q = y) (_hx : x < 2 ^ 64) (_hy : y < 2 ^ 64) :
    (x ≤ y → load (f m p q).2 p = x ∧ load (f m p q).2 q = y ∧ (f m p q).2 = m) ∧
    (load (f m p q).2 p ≠ x ∨ load (f m p q).2 q ≠ y → x > y) := by
  simp only [load] at hp hq
  subst hp hq
  have key : m p ≤ m q →
      load (f m p q).2 p = m p ∧ load (f m p q).2 q = m q ∧ (f m p q).2 = m := by
    intro h
    rw [variant_le f hf m p q h]
    exact ⟨rfl, rfl, rfl⟩
  refine ⟨key, ?_⟩
  intro hne
  by_contra hgt
  obtain ⟨h1, h2, _⟩ := key (Nat.le_of_not_gt hgt)
  rcases hne with h | h
  · exact h h1
  · exact h h2

/-- C10 on the ordered pair `(0, 2 ^ 64 - 1)` and on the equal pair `(9, 9)`. -/
theorem minmax_keeps_ordered_witness :
    (load (minmax (mem2 0 (2 ^ 64 - 1)) 0 1).2 0 = 0 ∧
      load (minmax (mem2 0 (2 ^ 64 - 1)) 0 1).2 1 = 2 ^ 64 - 1 ∧
      (minmax (mem2 0 (2 ^ 64 - 1)) 0 1).2 = mem2 0 (2 ^ 64 - 1)) ∧
    (load (minmax_xor (mem2 9 9) 0 1).2 0 = 9 ∧ load (minmax_xor (mem2 9 9) 0 1).2 1 = 9 ∧
      (minmax_xor (mem2 9 9) 0 1).2 = mem2 9 9) ∧
    (load (minmax_ternary (mem2 9 9) 0 1).2 0 = 9 ∧
      load (minmax_ternary (mem2 9 9) 0 1).2 1 = 9 ∧
      (minmax_ternary (mem2 9 9) 0 1).2 = mem2 9 9) :=
  ⟨(minmax_keeps_ordered minmax (Or.inl rfl) (mem2 0 (2 ^ 64 - 1)) 0 1 0 (2 ^ 64 - 1)
      rfl rfl (by decide) (by decide)).1 (by decide),
   (minmax_keeps_ordered minmax_xor (Or.inr (Or.inl rfl)) (mem2 9 9) 0 1 9 9
      rfl rfl (by decide) (by decide)).1 (by decide),
   (minmax_keeps_ordered minmax_ternary (Or.inr (Or.inr rfl)) (mem2 9 9) 0 1 9 9
      rfl rfl (by decide) (by decide)).1 (by decide)⟩

/-! ## Rotate3: the claims -/

/-- C4: for every triple of 32-bit unsigned values `(x, y, z)` held in three
pairwise distinct slots `p`, `q`, `r`, `rotr3_fixed` leaves the slots holding
`(z, x, y)`: the first gets the original third, the second the original
first, the third the original second. -/
theorem rotr3_fixed_rotates (m : Mem) (p q r : Addr) (x y z : Nat)
    (hpq : p ≠ q) (hpr : p ≠ r) (hqr : q ≠ r)
    (hp : load m p = x) (hq : load m q = y) (hr : load m r = z)
    (_hx : x < 2 ^ 32) (_hy : y < 2 ^ 32) (_hz : z < 2 ^ 32) :
    load (rotr3_fixed m p q r) p = z ∧ load (rotr3_fixed m p q r) q = x ∧
      load (rotr3_fixed m p q r) r = y := by
  simp only [load] at hp hq hr
  simp [rotr3_fixed, load, store, hpq, hpr, hqr, hp, hq, hr]

/-- C4 on `(1, 2, 3)`: the slots end as `(3, 1, 2)`. -/
theorem rotr3_fixed_rotates_witness :
    load (rotr3_fixed (mem3 1 2 3) 0 1 2) 0 = 3 ∧
      load (rotr3_fixed (mem3 1 2 3) 0 1 2) 1 = 1 ∧
      load (rotr3_fixed (mem3 1 2 3) 0 1 2) 2 = 2 :=
  rotr3_fixed_rotates (mem3 1 2 3) 0 1 2 1 2 3 (by decide) (by decide) (by decide)
    rfl rfl rfl (by decide) (by decide) (by decide)

/-- C5: `rotr3_spec x y z` returns true for every triple of 32-bit unsigned
values. -/
theorem rotr3_spec_true (x y z : Nat)
    (_hx : x < 2 ^ 32) (_hy : y < 2 ^ 32) (_hz : z < 2 ^ 32) :
    rotr3_spec x y z = true := by
  simp [rotr3_spec, rotr3_spec_frame, rotr3_fixed, load, store]

/-- C5 on the triples `(0, 0, 0)`, `(1, 1, 1)`, `(1, 2, 3)` and
`(2 ^ 32 - 1, 2 ^ 32 - 1, 2 ^ 32 - 1)`. -/
theorem rotr3_spec_true_witness :
    rotr3_spec 0 0 0 = true ∧ rotr3_spec 1 1 1 = true ∧ rotr3_spec 1 2 3 = true ∧
      rotr3_spec (2 ^ 32 - 1) (2 ^ 32 - 1) (2 ^ 32 - 1) = true :=
  ⟨rotr3_spec_true 0 0 0 (by decide) (by decide) (by decide),
   rotr3_spec_true 1 1 1 (by decide) (by decide) (by decide),
   rotr3_spec_true 1 2 3 (by decide) (by decide) (by decide),
   rotr3_spec_true (2 ^ 32 - 1) (2 ^ 32 - 1) (2 ^ 32 - 1)
     (by decide) (by decide) (by decide)⟩

/-- C6: for every triple `(x, y, z)` of 32-bit unsigned values held in three
pairwise distinct slots, applying `rotr3_fixed` three times in succession to
the same three slots returns them to `(x, y, z)`. -/
theorem rotr3_fixed_thrice (m : Mem) (p q r : Addr) (x y z : Nat)
    (hpq : p ≠ q) (hpr : p ≠ r) (hqr : q ≠ r)
    (hp : load m p = x) (hq : load m q = y) (hr : load m r = z)
    (_hx : x < 2 ^ 32) (_hy : y < 2 ^ 32) (_hz : z < 2 ^ 32) :
    load (rotr3_fixed (rotr3_fixed (rotr3_fixed m p q r) p q r) p q r) p = x ∧
      load (rotr3_fixed (rotr3_fixed (rotr3_fixed m p q r) p q r) p q r) q = y ∧
      load (rotr3_fixed (rotr3_fixed (rotr3_fixed m p q r) p q r) p q r) r = z := by
  simp only [load] at hp hq hr
  have hqp : q ≠ p := fun e => hpq e.symm
  have hrp : r ≠ p := fun e => hpr e.symm
  have hrq : r ≠ q := fun e => hqr e.symm
  simp [rotr3_fixed, load, store, hpq, hpr, hqr, hqp, hrp, hrq, hp, hq, hr]

/-- C6 on `(1, 2, 3)`: three rotations give `(1, 2, 3)` back. -/
theorem rotr3_fixed_thrice_witness :
    load (rotr3_fixed (rotr3_fixed (rotr3_fixed (mem3 1 2 3) 0 1 2) 0 1 2) 0 1 2) 0 = 1 ∧
      load (rotr3_fixed (rotr3_fixed (rotr3_fixed (mem3 1 2 3) 0 1 2) 0 1 2) 0 1 2) 1 = 2 ∧
      load (rotr3_fixed (rotr3_fixed (rotr3_fixed (mem3 1 2 3) 0 1 2) 0 1 2) 0 1 2) 2 = 3 :=
  rotr3_fixed_thrice (mem3 1 2 3) 0 1 2 1 2 3 (by decide) (by decide) (by decide)
    rfl rfl rfl (by decide) (by decide) (by decide)

/-- The distinctness of the slots matters for the three-fold rotation: when the
first two pointers name the same object, holding `1`, and the third holds `3`,
the value `3` is overwritten by the first call and never comes back. -/
theorem rotr3_fixed_thrice_aliased :
    load (mem2 1 3) 1 = 3 ∧
      load (rotr3_fixed (rotr3_fixed (rotr3_fixed (mem2 1 3) 0 0 1) 0 0 1) 0 0 1) 1 = 1 := by
  decide

/-- C7: for every triple `(x, y, z)` of 32-bit unsigned values held in three
pairwise distinct slots, the defective `rotr3` leaves the slots holding
`(z, z, x)`: the first and the second slot both get the original third value,
the third gets the original first, and the original second value is lost. -/
theorem rotr3_defect (m : Mem) (p q r : Addr) (x y z : Nat)
    (hpq : p ≠ q) (hpr : p ≠ r) (hqr : q ≠ r)
    (hp : load m p = x) (_hq : load m q = y) (hr : load m r = z)
    (_hx : x < 2 ^ 32) (_hy : y < 2 ^ 32) (_hz : z < 2 ^ 32) :
    load (rotr3 m p q r) p = z ∧ load (rotr3 m p q r) q = z ∧
      load (rotr3 m p q r) r = x := by
  simp only [load] at hp hr
  simp [rotr3, load, store, hpq, hpr, hqr, hp, hr]

/-- C7 on `(1, 2, 3)`: `rotr3` yields `(3, 3, 1)`, which is not `(3, 1, 2)`. -/
theorem rotr3_defect_witness :
    (load (rotr3 (mem3 1 2 3) 0 1 2) 0 = 3 ∧ load (rotr3 (mem3 1 2 3) 0 1 2) 1 = 3 ∧
      load (rotr3 (mem3 1 2 3) 0 1 2) 2 = 1) ∧
    (load (rotr3 (mem3 1 2 3) 0 1 2) 0, load (rotr3 (mem3 1 2 3) 0 1 2) 1,
      load (rotr3 (mem3 1 2 3) 0 1 2) 2) ≠ (3, 1, 2) :=
  ⟨rotr3_defect (mem3 1 2 3) 0 1 2 1 2 3 (by decide) (by decide) (by decide)
    rfl rfl rfl (by decide) (by decide) (by decide), by decide⟩

/-! ## The swap helper -/

/-- The memory `swap` leaves, as two stores into the original memory. -/
theorem swap_eq (m : Mem) (p q : Addr) :
    swap m p q = store (store m p (m q)) q (m p) := by
  simp [swap, load]

/-- C11: for every pair of 32-bit unsigned values `(x, y)` held in two
distinct slots, applying `swap` twice to the same two slots leaves them
holding `(x, y)` again. -/
theorem swap_twice (m : Mem) (p q : Addr) (x y : Nat) (hpq : p ≠ q)
    (hp : load m p = x) (hq : load m q = y) (_hx : x < 2 ^ 32) (_hy : y < 2 ^ 32) :
    load (swap (swap m p q) p q) p = x ∧ load (swap (swap m p q) p q) q = y := by
  simp only [load] at hp hq
  have hqp : q ≠ p := fun e => hpq e.symm
  simp [swap, load, store, hpq, hqp, hp, hq]

/-- C11 on `(1, 2 ^ 32 - 1)`. -/
theorem swap_twice_witness :
    load (swap (swap (mem2 1 (2 ^ 32 - 1)) 0 1) 0 1) 0 = 1 ∧
      load (swap (swap (mem2 1 (2 ^ 32 - 1)) 0 1) 0 1) 1 = 2 ^ 32 - 1 :=
  swap_twice (mem2 1 (2 ^ 32 - 1)) 0 1 1 (2 ^ 32 - 1) (by decide) rfl rfl
    (by decide) (by decide)

/-- C12: for every pair of 32-bit unsigned values `(x, y)` held in two
distinct slots, `swap` leaves the first slot holding `y` and the second
holding `x`. -/
theorem swap_exchanges (m : Mem) (p q : Addr) (x y : Nat) (hpq : p ≠ q)
    (hp : load m p = x) (hq : load m q = y) (_hx : x < 2 ^ 32) (_hy : y < 2 ^ 32) :
    load (swap m p q) p = y ∧ load (swap m p q) q = x := by
  simp only [load] at hp hq
  rw [swap_eq, exchanged_fst m p q hpq, exchanged_snd m p q]
  exact ⟨hq, hp⟩

/-- C12 on `(1, 2 ^ 32 - 1)`: the slots end as `(2 ^ 32 - 1, 1)`. -/
theorem swap_exchanges_witness :
    load (swap (mem2 1 (2 ^ 32 - 1)) 0 1) 0 = 2 ^ 32 - 1 ∧
      load (swap (mem2 1 (2 ^ 32 - 1)) 0 1) 1 = 1 :=
  swap_exchanges (mem2 1 (2 ^ 32 - 1)) 0 1 1 (2 ^ 32 - 1) (by decide) rfl rfl
    (by decide) (by decide)

/-- C14: for every triple `(x, y, z)` of 32-bit unsigned values held in three
pairwise distinct slots `p`, `q`, `r`, `rotr3_fixed` on `(p, q, r)` gives the
same final triple as `swap` on `(p, q)` followed by `swap` on `(p, r)`; the
two final memories are equal altogether. -/
theorem rotr3_fixed_is_two_swaps (m : Mem) (p q r : Addr) (x y z : Nat)
    (hpq : p ≠ q) (hpr : p ≠ r) (hqr : q ≠ r)
    (_hp : load m p = x) (_hq : load m q = y) (_hr : load m r = z)
    (_hx : x < 2 ^ 32) (_hy : y < 2 ^ 32) (_hz : z < 2 ^ 32) :
    (load (rotr3_fixed m p q r) p = load (swap (swap m p q) p r) p ∧
      load (rotr3_fixed m p q r) q = load (swap (swap m p q) p r) q ∧
      load (rotr3_fixed m p q r) r = load (swap (swap m p q) p r) r) ∧
    rotr3_fixed m p q r = swap (swap m p q) p r := by
  have hqp : q ≠ p := fun e => hpq e.symm
  have hrp : r ≠ p := fun e => hpr e.symm
  have hrq : r ≠ q := fun e => hqr e.symm
  have key : rotr3_fixed m p q r = swap (swap m p q) p r := by
    funext a
    by_cases h1 : a = r
    · subst h1
      simp [rotr3_fixed, swap, load, store, hpq, hqp, hpr, hqr, hrp, hrq]
    · by_cases h2 : a = q
      · subst h2
        simp [rotr3_fixed, swap, load, store, hpq, hqp, hpr, hqr, hrp, hrq, h1]
      · by_cases h3 : a = p
        · subst h3
          simp [rotr3_fixed, swap, load, store, hpq, hqp, hpr, hqr, hrp, hrq, h1, h2]
        · simp [rotr3_fixed, swap, load, store, hpq, hqp, hpr, hqr, hrp, hrq, h1, h2, h3]
  rw [key]
  exact ⟨⟨rfl, rfl, rfl⟩, rfl⟩

/-- C14 on `(1, 2, 3)`. -/
theorem rotr3_fixed_is_two_swaps_witness :
    (load (rotr3_fixed (mem3 1 2 3) 0 1 2) 0 = load (swap (swap (mem3 1 2 3) 0 1) 0 2) 0 ∧
      load (rotr3_fixed (mem3 1 2 3) 0 1 2) 1 = load (swap (swap (mem3 1 2 3) 0 1) 0 2) 1 ∧
      load (rotr3_fixed (mem3 1 2 3) 0 1 2) 2
        = load (swap (swap (mem3 1 2 3) 0 1) 0 2) 2) ∧
    rotr3_fixed (mem3 1 2 3) 0 1 2 = swap (swap (mem3 1 2 3) 0 1) 0 2 :=
  rotr3_fixed_is_two_swaps (mem3 1 2 3) 0 1 2 1 2 3 (by decide) (by decide) (by decide)
    rfl rfl rfl (by decide) (by decide) (by decide)

/-! ## Rotate3: the two rotations compared -/

/-- The three slots after `rotr3_fixed`, from the original memory. -/
theorem rotr3_fixed_slots (m : Mem) (p q r : Addr)
    (hpq : p ≠ q) (hpr : p ≠ r) (hqr : q ≠ r) :
    load (rotr3_fixed m p q r) p = m r ∧ load (rotr3_fixed m p q r) q = m p ∧
      load (rotr3_fixed m p q r) r = m q := by
  simp [rotr3_fixed, load, store, hpq, hpr, hqr]

/-- The three slots after the defective `rotr3`, from the original memory. -/
theorem rotr3_slots (m : Mem) (p q r : Addr)
    (hpq : p ≠ q) (hpr : p ≠ r) (hqr : q ≠ r) :
    load (rotr3 m p q r) p = m r ∧ load (rotr3 m p q r) q = m r ∧
      load (rotr3 m p q r) r = m p := by
  simp [rotr3, load, store, hpq, hpr, hqr]

/-- The checker of the source is the parametrised checker at `rotr3_fixed`. -/
theorem rotr3_spec_eq_on (x y z : Nat) :
    rotr3_spec x y z = rotr3_spec_on rotr3_fixed x y z := rfl

/-- C15: for every triple `(x, y, z)` of 32-bit unsigned values held in three
pairwise distinct slots, the defective `rotr3` and `rotr3_fixed` leave the same
final triple if and only if `x = y = z`; and the checker of the source, run on
`rotr3` in place of `rotr3_fixed`, returns true exactly on the triples with
`x = y = z`. -/
theorem rotr3_agrees_iff_all_equal (m : Mem) (p q r : Addr) (x y z : Nat)
    (hpq : p ≠ q) (hpr : p ≠ r) (hqr : q ≠ r)
    (hp : load m p = x) (hq : load m q = y) (hr : load m r = z)
    (_hx : x < 2 ^ 32) (_hy : y < 2 ^ 32) (_hz : z < 2 ^ 32) :
    ((load (rotr3 m p q r) p = load (rotr3_fixed m p q r) p ∧
        load (rotr3 m p q r) q = load (rotr3_fixed m p q r) q ∧
        load (rotr3 m p q r) r = load (rotr3_fixed m p q r) r) ↔ (x = y ∧ y = z)) ∧
    (rotr3_spec_on rotr3 x y z = true ↔ (x = y ∧ y = z)) := by
  simp only [load] at hp hq hr
  obtain ⟨a1, a2, a3⟩ := rotr3_slots m p q r hpq hpr hqr
  obtain ⟨b1, b2, b3⟩ := rotr3_fixed_slots m p q r hpq hpr hqr
  rw [a1, a2, a3, b1, b2, b3, hp, hq, hr]
  constructor
  · constructor
    · rintro ⟨_, h2, h3⟩
      exact ⟨h3, h3.symm.trans h2.symm⟩
    · rintro ⟨h1, h2⟩
      exact ⟨rfl, (h1.trans h2).symm, h1⟩
  · simp only [rotr3_spec_on, rotr3_spec_frame, rotr3, load, store]
    simp
    constructor
    · rintro ⟨h2, h3⟩
      exact ⟨h3, h3.symm.trans h2.symm⟩
    · rintro ⟨h1, h2⟩
      exact ⟨(h1.trans h2).symm, h1⟩

/-- C15 on `(1, 2, 3)`, where the two rotations differ, so that neither side
of either equivalence holds. -/
theorem rotr3_agrees_iff_all_equal_witness :
    ((load (rotr3 (mem3 1 2 3) 0 1 2) 0 = load (rotr3_fixed (mem3 1 2 3) 0 1 2) 0 ∧
        load (rotr3 (mem3 1 2 3) 0 1 2) 1 = load (rotr3_fixed (mem3 1 2 3) 0 1 2) 1 ∧
        load (rotr3 (mem3 1 2 3) 0 1 2) 2 = load (rotr3_fixed (mem3 1 2 3) 0 1 2) 2) ↔
      ((1 : Nat) = 2 ∧ (2 : Nat) = 3)) ∧
    (rotr3_spec_on rotr3 1 2 3 = true ↔ ((1 : Nat) = 2 ∧ (2 : Nat) = 3)) :=
  rotr3_agrees_iff_all_equal (mem3 1 2 3) 0 1 2 1 2 3 (by decide) (by decide) (by decide)
    rfl rfl rfl (by decide) (by decide) (by decide)

/-- C17: for every triple `(x, y, z)` of 32-bit unsigned values held in three
pairwise distinct slots, `rotr3_fixed` leaves all three slots holding their
original values if and only if `x = y = z`; a triple in which exactly two of
the values are equal is changed by the rotation. -/
theorem rotr3_fixed_fixes_iff_all_equal (m : Mem) (p q r : Addr) (x y z : Nat)
    (hpq : p ≠ q) (hpr : p ≠ r) (hqr : q ≠ r)
    (hp : load m p = x) (hq : load m q = y) (hr : load m r = z)
    (_hx : x < 2 ^ 32) (_hy : y < 2 ^ 32) (_hz : z < 2 ^ 32) :
    ((load (rotr3_fixed m p q r) p = x ∧ load (rotr3_fixed m p q r) q = y ∧
        load (rotr3_fixed m p q r) r = z) ↔ (x = y ∧ y = z)) ∧
    ((x = y ∧ y ≠ z) ∨ (x = z ∧ x ≠ y) ∨ (y = z ∧ x ≠ y) →
      ¬ (load (rotr3_fixed m p q r) p = x ∧ load (rotr3_fixed m p q r) q = y ∧
        load (rotr3_fixed m p q r) r = z)) := by
  simp only [load] at hp hq hr
  obtain ⟨b1, b2, b3⟩ := rotr3_fixed_slots m p q r hpq hpr hqr
  rw [b1, b2, b3, hp, hq, hr]
  constructor
  · constructor
    · rintro ⟨_, h2, h3⟩
      exact ⟨h2, h3⟩
    · rintro ⟨h1, h2⟩
      exact ⟨(h1.trans h2).symm, h1, h2⟩
  · rintro (⟨_, h2⟩ | ⟨_, h2⟩ | ⟨_, h2⟩) ⟨_, k2, k3⟩
    · exact h2 k3
    · exact h2 k2
    · exact h2 k2

/-- C17 on `(4, 4, 9)`, a triple with exactly two equal values: the rotation
changes it. -/
theorem rotr3_fixed_fixes_iff_all_equal_witness :
    ¬ (load (rotr3_fixed (mem3 4 4 9) 0 1 2) 0 = 4 ∧
        load (rotr3_fixed (mem3 4 4 9) 0 1 2) 1 = 4 ∧
        load (rotr3_fixed (mem3 4 4 9) 0 1 2) 2 = 9) :=
  (rotr3_fixed_fixes_iff_all_equal (mem3 4 4 9) 0 1 2 4 4 9 (by decide) (by decide)
    (by decide) rfl rfl rfl (by decide) (by decide) (by decide)).2
    (Or.inl ⟨rfl, by decide⟩)

/-! ## MinMax: a second call -/

/-- After any of the three variants the first slot is at most the second. -/
theorem variant_result_ordered (f : Mem → Addr → Addr → Int × Mem)
    (hf : f = minmax ∨ f = minmax_xor ∨ f = minmax_ternary)
    (m : Mem) (p q : Addr) :
    (f m p q).2 p ≤ (f m p q).2 q := by
  by_cases h : m p > m q
  · have hne : p ≠ q := by
      intro e
      rw [e] at h
      exact Nat.lt_irrefl _ h
    have e1 := exchanged_fst m p q hne
    have e2 := exchanged_snd m p q
    simp only [load] at e1 e2
    rw [variant_gt f hf m p q h]
    show store (store m p (m q)) q (m p) p ≤ store (store m p (m q)) q (m p) q
    rw [e1, e2]
    exact Nat.le_of_lt h
  · rw [variant_le f hf m p q (Nat.le_of_not_gt h)]
    exact Nat.le_of_not_gt h

/-- The two slots after any of the three variants are equal exactly when the
two original values are. -/
theorem variant_result_eq_iff (f : Mem → Addr → Addr → Int × Mem)
    (hf : f = minmax ∨ f = minmax_xor ∨ f = minmax_ternary)
    (m : Mem) (p q : Addr) :
    (f m p q).2 p = (f m p q).2 q ↔ m p = m q := by
  by_cases h : m p > m q
  · have hne : p ≠ q := by
      intro e
      rw [e] at h
      exact Nat.lt_irrefl _ h
    have e1 := exchanged_fst m p q hne
    have e2 := exchanged_snd m p q
    simp only [load] at e1 e2
    rw [variant_gt f hf m p q h]
    show store (store m p (m q)) q (m p) p = store (store m p (m q)) q (m p) q ↔ _
    rw [e1, e2]
    exact ⟨fun e => e.symm, fun e => e.symm⟩
  · rw [variant_le f hf m p q (Nat.le_of_not_gt h)]

/-- C16: each of `minmax`, `minmax_xor` and `minmax_ternary` is idempotent on
the slots: for every pair `(x, y)` of 64-bit unsigned values held in the
slots, a second call on the output of the first leaves both slots (indeed
the whole memory) as the first call left them, and the second call never
returns `1`: it returns `0` when `x = y` and `-1` otherwise. -/
theorem minmax_second_call (f : Mem → Addr → Addr → Int × Mem)
    (hf : f = minmax ∨ f = minmax_xor ∨ f = minmax_ternary)
    (m : Mem) (p q : Addr) (x y : Nat)
    (hp : load m p = x) (hq : load m q = y) (_hx : x < 2 ^ 64) (_hy : y < 2 ^ 64) :
    (load (f (f m p q).2 p q).2 p = load (f m p q).2 p ∧
      load (f (f m p q).2 p q).2 q = load (f m p q).2 q ∧
      (f (f m p q).2 p q).2 = (f m p q).2) ∧
    (f (f m p q).2 p q).1 ≠ 1 ∧
    (x = y → (f (f m p q).2 p q).1 = 0) ∧
    (x ≠ y → (f (f m p q).2 p q).1 = -1) := by
  simp only [load] at hp hq
  subst hp hq
  have hord := variant_result_ordered f hf m p q
  have heq := variant_result_eq_iff f hf m p q
  have h2 := variant_le f hf (f m p q).2 p q hord
  rw [h2]
  refine ⟨⟨rfl, rfl, rfl⟩, ?_, ?_, ?_⟩
  · by_cases e : (f m p q).2 p = (f m p q).2 q <;> simp [e]
  · intro e
    simp [heq.mpr e]
  · intro e
    have e2 : ¬ (f m p q).2 p = (f m p q).2 q := fun k => e (heq.mp k)
    simp [e2]

/-- C16 on `(2 ^ 64 - 1, 0)`, where the first call exchanges the slots, for
`minmax_xor`. -/
theorem minmax_second_call_witness :
    (load (minmax_xor (minmax_xor (mem2 (2 ^ 64 - 1) 0) 0 1).2 0 1).2 0
        = load (minmax_xor (mem2 (2 ^ 64 - 1) 0) 0 1).2 0 ∧
      load (minmax_xor (minmax_xor (mem2 (2 ^ 64 - 1) 0) 0 1).2 0 1).2 1
        = load (minmax_xor (mem2 (2 ^ 64 - 1) 0) 0 1).2 1 ∧
      (minmax_xor (minmax_xor (mem2 (2 ^ 64 - 1) 0) 0 1).2 0 1).2
        = (minmax_xor (mem2 (2 ^ 64 - 1) 0) 0 1).2) ∧
    (minmax_xor (minmax_xor (mem2 (2 ^ 64 - 1) 0) 0 1).2 0 1).1 ≠ 1 ∧
    (2 ^ 64 - 1 = 0 → (minmax_xor (minmax_xor (mem2 (2 ^ 64 - 1) 0) 0 1).2 0 1).1 = 0) ∧
    (2 ^ 64 - 1 ≠ 0 → (minmax_xor (minmax_xor (mem2 (2 ^ 64 - 1) 0) 0 1).2 0 1).1 = -1) :=
  minmax_second_call minmax_xor (Or.inr (Or.inl rfl)) (mem2 (2 ^ 64 - 1) 0) 0 1
    (2 ^ 64 - 1) 0 rfl rfl (by decide) (by decide)

/-! ## The demonstration loops -/

/-- The initial value of both counters of `main`. -/
theorem uint64_of_int_neg_five : uint64_of_int (-5) = 2 ^ 64 - 5 := by
  decide

/-- The inner loop runs no body from a counter that is not below `5`. -/
theorem main_inner_of_ge (i j : Nat) (h : 5 ≤ j) : main_inner i j = [] := by
  rw [main_inner]
  simp [Nat.not_lt.mpr h]

/-- The inner loop does run its body from a counter below `5`: from `3` it
runs it for `3` and for `4`. -/
theorem main_inner_from_three (i : Nat) :
    main_inner i 3 = [main_body i 3, main_body i 4] := by
  rw [main_inner, if_pos (by decide)]
  have e1 : (3 + 1) % 2 ^ 64 = 4 := by decide
  rw [e1, main_inner, if_pos (by decide)]
  have e2 : (4 + 1) % 2 ^ 64 = 5 := by decide
  rw [e2, main_inner_of_ge i 5 (Nat.le_refl 5)]

/-- C13: evaluation of `main` on the code.  Both counters start at
`2 ^ 64 - 5`, the conversion of `-5` to `uint64_t`; the conditions `i < 5` and
`j < 5` are unsigned comparisons, false at that value; so the outer loop stops
at its first test, `main` prints no line and calls `minmax` on no pair: in
particular not on the pair `(2 ^ 64 - 5, 2 ^ 64 - 5)` nor on `(0, 0)`. -/
theorem main_runs_no_body :
    uint64_of_int (-5) = 2 ^ 64 - 5 ∧ ¬ (uint64_of_int (-5) < 5) ∧ main = [] ∧
      main_body (2 ^ 64 - 5) (2 ^ 64 - 5) ∉ main ∧ main_body 0 0 ∉ main := by
  have h0 := uint64_of_int_neg_five
  have hlt : ¬ (uint64_of_int (-5) < 5) := by
    rw [h0]
    decide
  have hm : main = [] := by
    rw [main, main_outer, if_neg hlt]
  refine ⟨h0, hlt, hm, ?_, ?_⟩
  · rw [hm]
    exact List.not_mem_nil _
  · rw [hm]
    exact List.not_mem_nil _

end Exercises
